import Mathlib

/-!
# Verification of the CloudWatch Logs Garbage Goober pipeline

Shallow embedding of the repository's processing components — the log-group
resolver, the deletion scheduler, the event-intake and deletion batch
processors, and the Slack alert notifier — together with theorems checking
the specification's claims against them.

Dates and times are modelled as seconds/nanoseconds since the Unix epoch
with the proleptic Gregorian (ISO) civil calendar, matching the behaviour of
the `temporal-polyfill` library and of JavaScript `Date` on the timestamps
this pipeline handles.  External collaborators (the AWS SDK calls, `fetch`,
the parameter store, and the batch-processing library) are modelled by their
documented request/response contracts, with injected outcomes.
-/

/-- Gregorian leap-year rule (ISO calendar). -/
def isLeap (y : Nat) : Bool := y % 4 == 0 && (y % 100 != 0 || y % 400 == 0)

/-- Number of days in month `m` (1-12) of year `y` in the ISO calendar. -/
def daysInMonth (y m : Nat) : Nat :=
  if m = 2 then (if isLeap y then 29 else 28)
  else if m = 4 ∨ m = 6 ∨ m = 9 ∨ m = 11 then 30
  else 31

/-- Number of days in year `y` in the ISO calendar. -/
def daysInYear (y : Nat) : Nat := if isLeap y then 366 else 365

/-- Days in months `1 .. m-1` of year `y`. -/
def monthDaysBefore (y : Nat) : Nat → Nat
  | 0 => 0
  | m + 1 => monthDaysBefore y m + (if m = 0 then 0 else daysInMonth y m)

/-- Days from 1970-01-01 to `y`-01-01 (0 for years up to 1970). -/
def yearDays : Nat → Nat
  | 0 => 0
  | y + 1 => if y + 1 ≤ 1970 then 0 else yearDays y + daysInYear y

/-- Walk forward one year at a time from `y`, consuming `r` remaining days;
`fuel` bounds the iteration (any value above `r / 365` is enough). -/
def yearLoopAux : Nat → Nat → Nat → Nat × Nat
  | 0, y, r => (y, r)
  | fuel + 1, y, r => if r < daysInYear y then (y, r) else yearLoopAux fuel (y + 1) (r - daysInYear y)

/-- Walk forward one month at a time from month `m`, consuming the day-of-year
remainder `r`; `fuel` bounds the iteration (11 from January). -/
def monthLoopAux (y : Nat) : Nat → Nat → Nat → Nat × Nat
  | 0, m, r => (m, r + 1)
  | fuel + 1, m, r =>
      if r < daysInMonth y m then (m, r + 1) else monthLoopAux y fuel (m + 1) (r - daysInMonth y m)

/-- Convert a count of days since 1970-01-01 (UTC) to the ISO-calendar civil
date (year, month, day), as the `Temporal` ISO calendar does. -/
def civilFromDays (z : Nat) : Nat × Nat × Nat :=
  ((yearLoopAux (z + 1) 1970 z).1,
   (monthLoopAux (yearLoopAux (z + 1) 1970 z).1 11 1 (yearLoopAux (z + 1) 1970 z).2).1,
   (monthLoopAux (yearLoopAux (z + 1) 1970 z).1 11 1 (yearLoopAux (z + 1) 1970 z).2).2)

/-- Convert an ISO civil date (year at least 1970) to the count of days since
1970-01-01 (UTC). -/
def daysFromCivil (y m d : Nat) : Nat :=
  yearDays y + monthDaysBefore y m + (d - 1)

/-- Value of a decimal digit character. -/
def digitVal (c : Char) : Nat := c.toNat - 48

/-- Numeric value of a list of decimal digit characters (most significant first). -/
def valOfDigits (ds : List Char) : Nat := ds.foldl (fun acc c => acc * 10 + digitVal c) 0

/-- Decimal digit characters of `n`, most significant first; `fuel` bounds the
recursion (any value above `n` is enough). -/
def natDigitsAux : Nat → Nat → List Char
  | 0, _ => []
  | fuel + 1, n =>
      if n < 10 then [Char.ofNat (48 + n)]
      else natDigitsAux fuel (n / 10) ++ [Char.ofNat (48 + n % 10)]

/-- Decimal digit characters of `n`, most significant first. -/
def natDigits (n : Nat) : List Char := natDigitsAux (n + 1) n

/-- Decimal digits of `n` left-padded with zeros to width `w` (not truncated
when `n` has more than `w` digits, like `String.prototype.padStart`). -/
def padDigits (w n : Nat) : List Char :=
  List.replicate (w - (natDigits n).length) (Char.ofNat 48) ++ natDigits n

/-- Greedy scan of leading decimal digit characters. -/
def takeDigits : List Char → List Char × List Char
  | [] => ([], [])
  | c :: cs =>
      if c.isDigit then ((c :: (takeDigits cs).1), (takeDigits cs).2) else ([], c :: cs)

/-- An instant on the UTC timeline: whole seconds since the Unix epoch plus
sub-second nanoseconds, mirroring the precision of `Temporal.Instant`. -/
structure Instant where
  sec : Nat
  nanos : Nat
deriving DecidableEq

/-- Remove trailing zero characters (`Temporal` "auto" fractional precision). -/
def dropTrailingZeros (l : List Char) : List Char :=
  (l.reverse.dropWhile (fun c => c == Char.ofNat 48)).reverse

/-- The fractional-second part of the canonical ISO rendering: empty when the
nanoseconds are zero, otherwise a dot followed by the 9-digit fraction with
trailing zeros removed ("auto" precision of `Temporal.Instant.toString`). -/
def fracChars (nanos : Nat) : List Char :=
  if nanos = 0 then [] else Char.ofNat 46 :: dropTrailingZeros (padDigits 9 nanos)

/-- Characters of the date-time part (no zone designator) of the canonical
ISO-8601 UTC rendering of an instant, as `Temporal.Instant.toString` emits
before the final `Z`. -/
def instantDateTimeChars (i : Instant) : List Char :=
  padDigits 4 (civilFromDays (i.sec / 86400)).1 ++
  '-' :: (padDigits 2 (civilFromDays (i.sec / 86400)).2.1 ++
  '-' :: (padDigits 2 (civilFromDays (i.sec / 86400)).2.2 ++
  'T' :: (padDigits 2 (i.sec % 86400 / 3600) ++
  ':' :: (padDigits 2 (i.sec % 86400 % 3600 / 60) ++
  ':' :: (padDigits 2 (i.sec % 86400 % 60) ++
  fracChars i.nanos)))))

/-- Canonical ISO-8601 UTC rendering of an instant (`Temporal.Instant.toString`). -/
def instantToString (i : Instant) : String :=
  String.mk (instantDateTimeChars i ++ [Char.ofNat 90])

/-- Range-check the parsed civil fields and assemble the instant. -/
def finishInstant (y mo d h mi s nanos : Nat) : Option Instant :=
  if 1970 ≤ y ∧ 1 ≤ mo ∧ mo ≤ 12 ∧ 1 ≤ d ∧ d ≤ 31 ∧ h ≤ 23 ∧ mi ≤ 59 ∧ s ≤ 59 then
    some ⟨daysFromCivil y mo d * 86400 + h * 3600 + mi * 60 + s, nanos⟩
  else none

/-- Parse the optional fractional part and the final `Z` of an ISO instant. -/
def parseAfterSeconds (y mo d h mi s : Nat) : List Char → Option Instant
  | [] => none
  | c :: rest =>
      if c = 'Z' then (if rest = [] then finishInstant y mo d h mi s 0 else none)
      else if c = '.' then
        (if (takeDigits rest).1 = [] ∨ 9 < (takeDigits rest).1.length then none else
          match (takeDigits rest).2 with
          | [] => none
          | c2 :: rest3 =>
              if c2 = 'Z' then
                (if rest3 = [] then
                  finishInstant y mo d h mi s
                    (valOfDigits (takeDigits rest).1 * 10 ^ (9 - (takeDigits rest).1.length))
                else none)
              else none)
      else none

/-- Parse an ISO-8601 UTC timestamp of the form
`YYYY-MM-DDTHH:MM:SS[.fff]Z` into an instant (the subset of the formats
accepted by `Temporal.Instant.from` that this pipeline's events use; digit
runs are read greedily and the civil fields are range-checked). -/
def parseInstantChars (cs : List Char) : Option Instant :=
  if (takeDigits cs).1 = [] then none else
  match (takeDigits cs).2 with
  | [] => none
  | c0 :: r1 =>
    if c0 = '-' then
      (if (takeDigits r1).1 = [] then none else
      match (takeDigits r1).2 with
      | [] => none
      | c1 :: r2 =>
        if c1 = '-' then
          (if (takeDigits r2).1 = [] then none else
          match (takeDigits r2).2 with
          | [] => none
          | c2 :: r3 =>
            if c2 = 'T' then
              (if (takeDigits r3).1 = [] then none else
              match (takeDigits r3).2 with
              | [] => none
              | c3 :: r4 =>
                if c3 = ':' then
                  (if (takeDigits r4).1 = [] then none else
                  match (takeDigits r4).2 with
                  | [] => none
                  | c4 :: r5 =>
                    if c4 = ':' then
                      (if (takeDigits r5).1 = [] then none else
                      parseAfterSeconds (valOfDigits (takeDigits cs).1)
                        (valOfDigits (takeDigits r1).1) (valOfDigits (takeDigits r2).1)
                        (valOfDigits (takeDigits r3).1) (valOfDigits (takeDigits r4).1)
                        (valOfDigits (takeDigits r5).1) (takeDigits r5).2)
                    else none)
                else none)
            else none)
        else none)
    else none

/-- Parse an ISO-8601 UTC timestamp string into an instant. -/
def parseInstant (s : String) : Option Instant := parseInstantChars s.data

/-- Replace the first occurrence of `pat` (a nonempty character sequence) by
`rep`, as JavaScript `String.prototype.replace` does with a string pattern;
the input is returned unchanged when `pat` does not occur. -/
def replaceFirstAux (pat rep : List Char) : List Char → List Char
  | [] => []
  | c :: cs =>
      if pat.isPrefixOf (c :: cs) then rep ++ (c :: cs).drop pat.length
      else c :: replaceFirstAux pat rep cs

/-- JavaScript `s.replace(pat, rep)` for string patterns (first occurrence only). -/
def jsReplaceFirst (s pat rep : String) : String :=
  String.mk (replaceFirstAux pat.data rep.data s.data)

/-- The deletion instant computed by `createDeleteSchedule`:
`Temporal.Instant.from(eventTime).toZonedDateTimeISO('UTC')
  .add({ days: retentionInDays + deletionDelayDays }).toInstant()`.
Adding calendar days in the fixed-offset UTC zone advances the instant by
exactly 86400 seconds per day.  `none` models `Temporal.Instant.from`
throwing on an unparseable timestamp. -/
def deletionDate (eventTime : String) (retentionInDays deletionDelayDays : Nat) :
    Option Instant :=
  (parseInstant eventTime).map fun i =>
    ⟨i.sec + (retentionInDays + deletionDelayDays) * 86400, i.nanos⟩

/-- The `ScheduleExpression` passed to `CreateScheduleCommand`:
`at(${deletionDate.toString().replace('Z', '')})`. -/
def scheduleExpression (eventTime : String) (retentionInDays deletionDelayDays : Nat) :
    Option String :=
  (deletionDate eventTime retentionInDays deletionDelayDays).map fun d =>
    "at(" ++ jsReplaceFirst (instantToString d) "Z" "" ++ ")"

def quoteChar : Char := Char.ofNat 34

def backslashChar : Char := Char.ofNat 92

def lbraceChar : Char := Char.ofNat 123

def rbraceChar : Char := Char.ofNat 125

/-- Lowercase hexadecimal digit character for `n < 16`. -/
def hexDigitChar (n : Nat) : Char :=
  if n < 10 then Char.ofNat (48 + n) else Char.ofNat (87 + n)

/-- Value of a hexadecimal digit character (`JSON.parse` accepts both cases). -/
def hexVal (c : Char) : Option Nat :=
  if 48 ≤ c.toNat ∧ c.toNat ≤ 57 then some (c.toNat - 48)
  else if 97 ≤ c.toNat ∧ c.toNat ≤ 102 then some (c.toNat - 87)
  else if 65 ≤ c.toNat ∧ c.toNat ≤ 70 then some (c.toNat - 55)
  else none

/-- Escape of one character inside a JSON string literal, exactly as
`JSON.stringify` emits it: quote and backslash get two-character escapes,
the named control characters get their short escapes, the remaining control
characters get `\u00XX`, and everything else is emitted verbatim. -/
def jsonEscapeChar (c : Char) : List Char :=
  if c = quoteChar then [backslashChar, quoteChar]
  else if c = backslashChar then [backslashChar, backslashChar]
  else if c = Char.ofNat 8 then [backslashChar, 'b']
  else if c = Char.ofNat 9 then [backslashChar, 't']
  else if c = Char.ofNat 10 then [backslashChar, 'n']
  else if c = Char.ofNat 12 then [backslashChar, 'f']
  else if c = Char.ofNat 13 then [backslashChar, 'r']
  else if c.toNat < 32 then
    [backslashChar, 'u', Char.ofNat 48, Char.ofNat 48,
     hexDigitChar (c.toNat / 16), hexDigitChar (c.toNat % 16)]
  else [c]

/-- Escaped character sequence of a whole string. -/
def jsonEscapeList (l : List Char) : List Char := l.flatMap jsonEscapeChar

/-- A JSON string literal (including the surrounding quotes) as
`JSON.stringify` emits it. -/
def jsonQuote (s : String) : List Char :=
  quoteChar :: jsonEscapeList s.data ++ [quoteChar]

/-- Model of `JSON.stringify({ logGroupName, awsRegion })` — the exact `Target.Input`
payload the scheduler registers. -/
def jsonStringifyTargetInput (logGroupName awsRegion : String) : String :=
  String.mk (lbraceChar :: (jsonQuote "logGroupName" ++ ':' :: (jsonQuote logGroupName ++
    ',' :: (jsonQuote "awsRegion" ++ ':' :: (jsonQuote awsRegion ++ [rbraceChar])))))

/-- Parse the remainder of a JSON string literal (the opening quote already
consumed), decoding the escapes `JSON.parse` accepts; `fuel` bounds the
recursion (the input length suffices). -/
def parseJsonStringAux : Nat → List Char → Option (List Char × List Char)
  | 0, _ => none
  | _ + 1, [] => none
  | fuel + 1, c :: cs =>
      if c = quoteChar then some ([], cs)
      else if c = backslashChar then
        match cs with
        | [] => none
        | e :: cs2 =>
          if e = quoteChar then
            (parseJsonStringAux fuel cs2).map fun p => (quoteChar :: p.1, p.2)
          else if e = backslashChar then
            (parseJsonStringAux fuel cs2).map fun p => (backslashChar :: p.1, p.2)
          else if e = '/' then
            (parseJsonStringAux fuel cs2).map fun p => ('/' :: p.1, p.2)
          else if e = 'b' then
            (parseJsonStringAux fuel cs2).map fun p => (Char.ofNat 8 :: p.1, p.2)
          else if e = 't' then
            (parseJsonStringAux fuel cs2).map fun p => (Char.ofNat 9 :: p.1, p.2)
          else if e = 'n' then
            (parseJsonStringAux fuel cs2).map fun p => (Char.ofNat 10 :: p.1, p.2)
          else if e = 'f' then
            (parseJsonStringAux fuel cs2).map fun p => (Char.ofNat 12 :: p.1, p.2)
          else if e = 'r' then
            (parseJsonStringAux fuel cs2).map fun p => (Char.ofNat 13 :: p.1, p.2)
          else if e = 'u' then
            match cs2 with
            | h1 :: h2 :: h3 :: h4 :: cs3 =>
                match hexVal h1, hexVal h2, hexVal h3, hexVal h4 with
                | some v1, some v2, some v3, some v4 =>
                    (parseJsonStringAux fuel cs3).map fun p =>
                      (Char.ofNat (v1 * 4096 + v2 * 256 + v3 * 16 + v4) :: p.1, p.2)
                | _, _, _, _ => none
            | _ => none
          else none
      else (parseJsonStringAux fuel cs).map fun p => (c :: p.1, p.2)

/-- Parse the member list of a JSON object whose values are all string
literals (the shape this pipeline's messages use), the opening brace already
consumed; no whitespace is accepted, matching what `JSON.stringify` emits. -/
def parseMembersAux : Nat → List Char → Option (List (String × String) × List Char)
  | 0, _ => none
  | fuel + 1, cs =>
      match cs with
      | [] => none
      | c :: cs1 =>
        if c = quoteChar then
          match parseJsonStringAux (cs1.length + 1) cs1 with
          | none => none
          | some (key, rest1) =>
            match rest1 with
            | [] => none
            | c1 :: rest2 =>
              if c1 = ':' then
                match rest2 with
                | [] => none
                | c2 :: rest3 =>
                  if c2 = quoteChar then
                    match parseJsonStringAux (rest3.length + 1) rest3 with
                    | none => none
                    | some (value, rest4) =>
                      match rest4 with
                      | [] => none
                      | c3 :: rest5 =>
                        if c3 = ',' then
                          (parseMembersAux fuel rest5).map fun p =>
                            ((String.mk key, String.mk value) :: p.1, p.2)
                        else if c3 = rbraceChar then
                          some ([(String.mk key, String.mk value)], rest5)
                        else none
                  else none
              else none
        else none

/-- Model of `JSON.parse` restricted to the non-empty, whitespace-free objects of
string members that this pipeline exchanges. -/
def jsonParseStringObject (s : String) : Option (List (String × String)) :=
  if s.data.head? = some lbraceChar then
    match parseMembersAux (s.data.tail.length + 1) s.data.tail with
    | some (mems, rest) => if rest = [] then some mems else none
    | none => none
  else none

/-- A validated deletion message (`DeletionMessageSchema`). -/
structure DeletionMessage where
  logGroupName : String
  awsRegion : String
deriving DecidableEq

/-- Last-occurrence property lookup, as a JavaScript object literal built by
`JSON.parse` exposes duplicate keys (the last one wins). -/
def lookupLast (key : String) (l : List (String × String)) : Option String :=
  l.reverse.lookup key

/-- Model of `DeletionMessageSchema.parse(JSON.parse(body))`: the JSON-transformer
parsing step of the deletion processor, requiring both `logGroupName` and
`awsRegion` to be present string fields. -/
def parseDeletionMessage (body : String) : Option DeletionMessage :=
  match jsonParseStringObject body with
  | none => none
  | some obj =>
      match lookupLast "logGroupName" obj, lookupLast "awsRegion" obj with
      | some lg, some r => some ⟨lg, r⟩
      | _, _ => none

deriving instance DecidableEq for Except

/-- A log group as returned by `DescribeLogGroups` (`retentionInDays` is
absent for never-expire groups). -/
structure LogGroup where
  logGroupName : String
  retentionInDays : Option Nat
deriving DecidableEq

def notFoundMessage : String := "Log group not found or does not exist"

/-- Model of `fetchLogGroupInfo` of the current event handler: the response of the
describe-by-prefix query is `response.logGroups` (possibly absent), and the
entry whose `logGroupName` is an exact match is selected;
a missing match throws the NotFound error. -/
def fetchLogGroupInfo (logGroupName : String) (logGroups : Option (List LogGroup)) :
    Except String LogGroup :=
  match (logGroups.getD []).find? (fun lg => lg.logGroupName == logGroupName) with
  | some lg => .ok lg
  | none => .error notFoundMessage

/-- Model of `Lambda.#fetchLogGroupInfo` of the legacy class-based handler
(`cw-logs-event-handler.ts`): it takes `response.logGroups?.[0]`, the first
entry of the response, with no exact-name check. -/
def fetchLogGroupInfoLegacy (logGroups : Option (List LogGroup)) : Except String LogGroup :=
  match (logGroups.getD []).head? with
  | some lg => .ok lg
  | none => .error notFoundMessage

/-- Per-record step of the event handler (`recordHandler`): resolve the log
group, then build the delete schedule with `retentionInDays ?? 0`.  The
result carries the schedule expression registered on success. -/
def eventRecordHandler (eventTime logGroupName : String) (logGroups : Option (List LogGroup))
    (deletionDelayDays : Nat) : Except String String :=
  match fetchLogGroupInfo logGroupName logGroups with
  | .error e => .error e
  | .ok lg =>
      match scheduleExpression eventTime (lg.retentionInDays.getD 0) deletionDelayDays with
      | some expr => .ok expr
      | none => .error "Invalid eventTime"

/-- The distinguished full-batch-failure condition
(`FullBatchFailureError` of the batch-processing library). -/
inductive BatchError where
  | fullBatchFailure
deriving DecidableEq

/-- Whether a processed record failed (its outcome is an error). -/
def isFailureEntry {ε α : Type} (r : String × Except ε α) : Bool :=
  match r.2 with | .ok _ => false | .error _ => true

/-- The partial-failure contract of `processPartialResponse` (spec section 6,
"queueing layer"): each record is attempted independently; the identifiers of
failed records are reported for selective redelivery, except that a wholly
failed non-empty batch raises `FullBatchFailureError` when
`throwOnFullBatchFailure` is left enabled. -/
def processPartialResponse {ε α : Type} (results : List (String × Except ε α))
    (throwOnFullBatchFailure : Bool) : Except BatchError (List String) :=
  let failures := (results.filter isFailureEntry).map fun r => r.1
  if 0 < results.length ∧ failures.length = results.length ∧ throwOnFullBatchFailure = true then
    .error .fullBatchFailure
  else .ok failures

/-- Outcome of the `DeleteLogGroupCommand` call. -/
inductive DeleteLogGroupError where
  | resourceNotFound (message : String)
  | other (message : String)
deriving DecidableEq

/-- Model of `recordHandler` of the deletion handler: `ResourceNotFoundException` is
swallowed (already-deleted log group is a success); every other error is
rethrown. -/
def deletionRecordHandler (deleteResult : Except DeleteLogGroupError Unit) :
    Except DeleteLogGroupError Unit :=
  match deleteResult with
  | .ok _ => .ok ()
  | .error (.resourceNotFound _) => .ok ()
  | .error e => .error e

/-- The deletion handler: batch processing with the default
`throwOnFullBatchFailure` (enabled).  Each record is the pair of its SQS
message id and the outcome its delete call would have. -/
def deletionHandler (records : List (String × Except DeleteLogGroupError Unit)) :
    Except BatchError (List String) :=
  processPartialResponse (records.map fun r => (r.1, deletionRecordHandler r.2)) true

/-- The event handler: batch processing with `throwOnFullBatchFailure: false`.
Each record is its SQS message id with the event's `eventTime`, requested
`logGroupName`, and the describe response for it. -/
def eventHandler (deletionDelayDays : Nat)
    (records : List (String × String × String × Option (List LogGroup))) :
    Except BatchError (List String) :=
  processPartialResponse
    (records.map fun r => (r.1, eventRecordHandler r.2.1 r.2.2.1 r.2.2.2 deletionDelayDays))
    false

/-- Alarm state values of the CloudWatch alarm event schema. -/
inductive AlarmStateValue where
  | ALARM
  | OK
  | INSUFFICIENT_DATA
deriving DecidableEq

structure AlarmState where
  value : AlarmStateValue
  timestamp : String
  reason : String
deriving DecidableEq

structure AlarmConfig where
  description : String
deriving DecidableEq

structure AlarmData where
  alarmName : String
  state : AlarmState
  config : AlarmConfig
deriving DecidableEq

/-- A validated `CloudWatchAlarmEvent` (after `CloudWatchAlarmEventSchema.parse`). -/
structure CloudWatchAlarmEvent where
  alarmArn : String
  accountId : String
  time : String
  region : String
  alarmData : AlarmData
deriving DecidableEq

/-- UTF-8 byte sequence of a scalar value, as `encodeURIComponent` encodes
non-unreserved characters. -/
def utf8Bytes (c : Char) : List Nat :=
  if c.toNat < 128 then [c.toNat]
  else if c.toNat < 2048 then [192 + c.toNat / 64, 128 + c.toNat % 64]
  else if c.toNat < 65536 then
    [224 + c.toNat / 4096, 128 + c.toNat / 64 % 64, 128 + c.toNat % 64]
  else
    [240 + c.toNat / 262144, 128 + c.toNat / 4096 % 64, 128 + c.toNat / 64 % 64, 128 + c.toNat % 64]

def hexDigitUpper (n : Nat) : Char :=
  if n < 10 then Char.ofNat (48 + n) else Char.ofNat (55 + n)

/-- The characters `encodeURIComponent` leaves unescaped:
`A-Z a-z 0-9 - _ . ! ~ * ' ( )`. -/
def isUriUnreserved (c : Char) : Bool :=
  c.isAlpha || c.isDigit || c = '-' || c = '_' || c = '.' || c = '!' ||
    c = Char.ofNat 126 || c = '*' || c = Char.ofNat 39 || c = Char.ofNat 40 || c = Char.ofNat 41

/-- JavaScript `encodeURIComponent`: unreserved characters verbatim, all
others percent-encoded byte-by-byte in uppercase hexadecimal. -/
def encodeURIComponent (s : String) : String :=
  String.mk (s.data.flatMap fun c =>
    if isUriUnreserved c then [c]
    else (utf8Bytes c).flatMap fun b => ['%', hexDigitUpper (b / 16), hexDigitUpper (b % 16)])

/-- JavaScript `String.prototype.split` with a single-character separator
(keeps empty fields). -/
def jsSplitChar (sep : Char) : List Char → List (List Char)
  | [] => [[]]
  | c :: cs =>
      if c = sep then [] :: jsSplitChar sep cs
      else
        match jsSplitChar sep cs with
        | h :: t => (c :: h) :: t
        | [] => [[c]]

/-- JavaScript `s.split(sep)` for a one-character separator string. -/
def jsSplit (s : String) (sep : Char) : List String :=
  (jsSplitChar sep s.data).map String.mk

/-- Model of `buildCloudWatchUrl`: split the alarm ARN on `:`; fewer than 7 parts is an
error; otherwise build the console deep link from the region (part 3) and the
alarm name (part 6, URI-encoded). -/
def buildCloudWatchUrl (alarmArn : String) : Except String String :=
  if (jsSplit alarmArn ':').length < 7 then
    .error ("Invalid alarm ARN format: " ++ alarmArn)
  else
    .ok ("https://" ++ (jsSplit alarmArn ':')[3]! ++
      ".console.aws.amazon.com/cloudwatch/home?region=" ++ (jsSplit alarmArn ':')[3]! ++
      "#alarmsV2:alarm/" ++ encodeURIComponent (jsSplit alarmArn ':')[6]!)

/-- Model of `Date.prototype.toISOString`: canonical UTC rendering with exactly three
fractional digits. -/
def jsDateIsoChars (i : Instant) : List Char :=
  padDigits 4 (civilFromDays (i.sec / 86400)).1 ++
  '-' :: (padDigits 2 (civilFromDays (i.sec / 86400)).2.1 ++
  '-' :: (padDigits 2 (civilFromDays (i.sec / 86400)).2.2 ++
  'T' :: (padDigits 2 (i.sec % 86400 / 3600) ++
  ':' :: (padDigits 2 (i.sec % 86400 % 3600 / 60) ++
  ':' :: (padDigits 2 (i.sec % 86400 % 60) ++
  '.' :: (padDigits 3 (i.nanos / 1000000) ++ ['Z']))))))

/-- The regex replacement `.replace(/\.\d+Z$/, ' UTC')`: when the string ends
in a dot, one or more digits and `Z`, that suffix becomes ` UTC`; otherwise
the string is unchanged. -/
def stripMsZ (l : List Char) : List Char :=
  match l.reverse with
  | [] => l
  | c :: rest =>
      if c = 'Z' ∧ rest.takeWhile Char.isDigit ≠ [] then
        match rest.dropWhile Char.isDigit with
        | d :: rest2 => if d = '.' then rest2.reverse ++ (' ' :: ['U', 'T', 'C']) else l
        | [] => l
      else l

/-- Model of `formatTimestamp`:
`new Date(iso).toISOString().replace('T', ' ').replace(/\.\d+Z$/, ' UTC')`.
`none` models the `RangeError` an invalid date raises from `toISOString`. -/
def formatTimestamp (isoTimestamp : String) : Option String :=
  (parseInstant isoTimestamp).map fun i =>
    String.mk (stripMsZ (replaceFirstAux ['T'] [' '] (jsDateIsoChars i)))

/-- The notification payload posted to the Slack workflow webhook. -/
structure SlackPayload where
  emoji : String
  alarmName : String
  alarmDescription : String
  cloudWatchUrl : String
  region : String
  alarmTime : String
  appName : String
deriving DecidableEq

/-- Outcome of one `fetch` POST attempt: a 2xx response, a non-2xx response,
or a transport error. -/
inductive FetchOutcome where
  | success
  | httpError (status : Nat) (statusText : String)
  | transportError (message : String)
deriving DecidableEq

/-- The error message raised for a failed attempt
(`HTTP ${status}: ${statusText}` for a non-ok response; the transport error
itself otherwise). -/
def fetchErrorMessage : FetchOutcome → String
  | .success => ""
  | .httpError status statusText => "HTTP " ++ toString status ++ ": " ++ statusText
  | .transportError message => message

/-- Observable external calls of the notifier, in order. -/
inductive Effect where
  | getParam (name : String)
  | fetchPost (url : String) (payload : SlackPayload)
  | logSuccess (attempt : Nat)
  | sleepMs (ms : Nat)
deriving DecidableEq

/-- The retry loop of `sendWithRetry`, from `attempt` with `remaining`
retries left: try the POST; on success log and return; on failure rethrow
when no retries remain, otherwise sleep `2 ** attempt * 1000` ms and retry. -/
def sendWithRetryAux (url : String) (payload : SlackPayload) (outcomes : Nat → FetchOutcome) :
    Nat → Nat → Except String Unit × List Effect
  | attempt, 0 =>
      match outcomes attempt with
      | .success => (.ok (), [.fetchPost url payload, .logSuccess attempt])
      | o => (.error (fetchErrorMessage o), [.fetchPost url payload])
  | attempt, remaining + 1 =>
      match outcomes attempt with
      | .success => (.ok (), [.fetchPost url payload, .logSuccess attempt])
      | _ =>
          ((sendWithRetryAux url payload outcomes (attempt + 1) remaining).1,
            .fetchPost url payload :: .sleepMs (2 ^ attempt * 1000) ::
              (sendWithRetryAux url payload outcomes (attempt + 1) remaining).2)

/-- Model of `sendWithRetry(payload, url, maxRetries)`: the loop starts at attempt 0
with `maxRetries` retries available (the handler uses the default of 3). -/
def sendWithRetry (url : String) (payload : SlackPayload) (outcomes : Nat → FetchOutcome)
    (maxRetries : Nat) : Except String Unit × List Effect :=
  sendWithRetryAux url payload outcomes 0 maxRetries

/-- Per-invocation environment of the notifier: the two environment
variables, the parameter-store result for the webhook URL (`none` when the
parameter is undefined), and the outcome each fetch attempt would have. -/
structure NotifierEnv where
  webhookParamName : String
  appName : String
  webhookUrl : Option String
  fetch : Nat → FetchOutcome

/-- The Slack workflow notifier `handler`: skip entirely unless the alarm
state is ALARM; otherwise fetch the webhook URL from the parameter store
(failing fast when it is missing or empty), build the payload, and deliver it
with `sendWithRetry`.  Returns the invocation result together with the trace
of external calls. -/
def notifierHandler (event : CloudWatchAlarmEvent) (env : NotifierEnv) :
    Except String Unit × List Effect :=
  if event.alarmData.state.value ≠ .ALARM then (.ok (), [])
  else
    match env.webhookUrl with
    | none => (.error "Webhook URL not available", [.getParam env.webhookParamName])
    | some url =>
        if url = "" then (.error "Webhook URL not available", [.getParam env.webhookParamName])
        else
          match buildCloudWatchUrl event.alarmArn with
          | .error e => (.error e, [.getParam env.webhookParamName])
          | .ok cwUrl =>
              match formatTimestamp event.alarmData.state.timestamp with
              | none => (.error "Invalid time value", [.getParam env.webhookParamName])
              | some alarmTime =>
                  ((sendWithRetry url
                      ⟨"🚨", event.alarmData.alarmName, event.alarmData.config.description,
                        cwUrl, event.region, alarmTime, env.appName⟩ env.fetch 3).1,
                    .getParam env.webhookParamName ::
                      (sendWithRetry url
                        ⟨"🚨", event.alarmData.alarmName, event.alarmData.config.description,
                          cwUrl, event.region, alarmTime, env.appName⟩ env.fetch 3).2)

/-- Number of webhook POST attempts in a trace. -/
def countFetches (trace : List Effect) : Nat :=
  (trace.filter fun e => match e with | .fetchPost _ _ => true | _ => false).length

/-- Number of success log entries in a trace. -/
def countSuccessLogs (trace : List Effect) : Nat :=
  (trace.filter fun e => match e with | .logSuccess _ => true | _ => false).length

/-- The backoff sleeps of a trace, in order, in milliseconds. -/
def sleepsOf (trace : List Effect) : List Nat :=
  trace.filterMap fun e => match e with | .sleepMs n => some n | _ => none

theorem daysInYear_eq_months (y : Nat) : daysInYear y = monthDaysBefore y 13 := by
  cases h : isLeap y <;> simp [daysInYear, monthDaysBefore, daysInMonth, h]

theorem daysInMonth_le (y m : Nat) : daysInMonth y m ≤ 31 := by
  unfold daysInMonth
  split
  · split <;> omega
  · split <;> omega

theorem daysInYear_ge (y : Nat) : 365 ≤ daysInYear y := by
  unfold daysInYear; split <;> omega

theorem monthLoopAux_correct (y : Nat) :
    ∀ fuel m r, m + fuel = 12 → 1 ≤ m →
      r + monthDaysBefore y m < daysInYear y →
      monthDaysBefore y (monthLoopAux y fuel m r).1 + ((monthLoopAux y fuel m r).2 - 1)
          = monthDaysBefore y m + r ∧
      m ≤ (monthLoopAux y fuel m r).1 ∧ (monthLoopAux y fuel m r).1 ≤ 12 ∧
      1 ≤ (monthLoopAux y fuel m r).2 ∧
      (monthLoopAux y fuel m r).2 ≤ daysInMonth y (monthLoopAux y fuel m r).1 := by
  intro fuel
  induction fuel with
  | zero =>
      intro m r hm hm1 hr
      have h12 : m = 12 := by omega
      subst h12
      have hy := daysInYear_eq_months y
      have h13 : monthDaysBefore y 13 = monthDaysBefore y 12 + daysInMonth y 12 := by
        simp [monthDaysBefore]
      simp only [monthLoopAux]
      refine ⟨?_, ?_, ?_, ?_, ?_⟩ <;> omega
  | succ fuel ih =>
      intro m r hm hm1 hr
      simp only [monthLoopAux]
      split
      · dsimp only
        refine ⟨?_, ?_, ?_, ?_, ?_⟩ <;> omega
      · have hmdb : monthDaysBefore y (m + 1) = monthDaysBefore y m + daysInMonth y m := by
          have hm0 : m ≠ 0 := by omega
          simp [monthDaysBefore, hm0]
        have hrec := ih (m + 1) (r - daysInMonth y m) (by omega) (by omega) (by omega)
        refine ⟨?_, ?_, ?_, ?_, ?_⟩ <;> omega

theorem yearLoopAux_correct :
    ∀ fuel y r, 1970 ≤ y → r ≤ 365 * fuel + 364 →
      yearDays (yearLoopAux fuel y r).1 + (yearLoopAux fuel y r).2 = yearDays y + r ∧
      (yearLoopAux fuel y r).2 < daysInYear (yearLoopAux fuel y r).1 ∧
      1970 ≤ (yearLoopAux fuel y r).1 := by
  intro fuel
  induction fuel with
  | zero =>
      intro y r hy hr
      simp only [yearLoopAux]
      have := daysInYear_ge y
      exact ⟨by simp, by omega, hy⟩
  | succ fuel ih =>
      intro y r hy hr
      simp only [yearLoopAux]
      split
      · exact ⟨by simp, by assumption, hy⟩
      · have hyd : yearDays (y + 1) = yearDays y + daysInYear y := by
          have hgt : ¬ (y + 1 ≤ 1970) := by omega
          simp [yearDays, hgt]
        have hge := daysInYear_ge y
        have hrec := ih (y + 1) (r - daysInYear y) (by omega) (by omega)
        exact ⟨by omega, hrec.2.1, by omega⟩

theorem daysFromCivil_civilFromDays (z : Nat) :
    daysFromCivil (civilFromDays z).1 (civilFromDays z).2.1 (civilFromDays z).2.2 = z := by
  unfold civilFromDays daysFromCivil
  dsimp only
  have h1970 : yearDays 1970 = 0 := by decide
  have hy := yearLoopAux_correct (z + 1) 1970 z (by omega) (by omega)
  have hmdb1 : monthDaysBefore (yearLoopAux (z + 1) 1970 z).1 1 = 0 := by
    simp [monthDaysBefore]
  have hm := monthLoopAux_correct (yearLoopAux (z + 1) 1970 z).1 11 1 (yearLoopAux (z + 1) 1970 z).2
    (by omega) (by omega) (by omega)
  omega

theorem civilFromDays_bounds (z : Nat) :
    1970 ≤ (civilFromDays z).1 ∧
    1 ≤ (civilFromDays z).2.1 ∧ (civilFromDays z).2.1 ≤ 12 ∧
    1 ≤ (civilFromDays z).2.2 ∧ (civilFromDays z).2.2 ≤ 31 := by
  unfold civilFromDays
  dsimp only
  have hy := yearLoopAux_correct (z + 1) 1970 z (by omega) (by omega)
  have hmdb1 : monthDaysBefore (yearLoopAux (z + 1) 1970 z).1 1 = 0 := by
    simp [monthDaysBefore]
  have hm := monthLoopAux_correct (yearLoopAux (z + 1) 1970 z).1 11 1 (yearLoopAux (z + 1) 1970 z).2
    (by omega) (by omega) (by omega)
  have hle := daysInMonth_le (yearLoopAux (z + 1) 1970 z).1
    (monthLoopAux (yearLoopAux (z + 1) 1970 z).1 11 1 (yearLoopAux (z + 1) 1970 z).2).1
  exact ⟨by omega, by omega, by omega, by omega, by omega⟩

theorem digitChar_isDigit (d : Nat) (h : d < 10) : (Char.ofNat (48 + d)).isDigit = true := by
  interval_cases d <;> decide

theorem digitChar_val (d : Nat) (h : d < 10) : digitVal (Char.ofNat (48 + d)) = d := by
  interval_cases d <;> decide

theorem valOfDigits_append_digit (ds : List Char) (c : Char) :
    valOfDigits (ds ++ [c]) = valOfDigits ds * 10 + digitVal c := by
  simp [valOfDigits, List.foldl_append]

theorem natDigitsAux_spec :
    ∀ fuel n, n < fuel →
      (∀ c ∈ natDigitsAux fuel n, c.isDigit = true) ∧
      valOfDigits (natDigitsAux fuel n) = n ∧ natDigitsAux fuel n ≠ [] := by
  intro fuel
  induction fuel with
  | zero => intro n h; omega
  | succ fuel ih =>
      intro n h
      simp only [natDigitsAux]
      split
      · refine ⟨?_, ?_, by simp⟩
        · intro c hc
          simp at hc
          subst hc
          exact digitChar_isDigit n (by omega)
        · simpa [valOfDigits] using digitChar_val n (by omega)
      · have hn10 : n / 10 < fuel := by omega
        have hrec := ih (n / 10) hn10
        refine ⟨?_, ?_, by simp⟩
        · intro c hc
          rcases List.mem_append.mp hc with hc | hc
          · exact hrec.1 c hc
          · simp at hc
            subst hc
            exact digitChar_isDigit (n % 10) (by omega)
        · rw [valOfDigits_append_digit, hrec.2.1, digitChar_val (n % 10) (by omega)]
          omega

theorem natDigits_spec (n : Nat) :
    (∀ c ∈ natDigits n, c.isDigit = true) ∧ valOfDigits (natDigits n) = n ∧ natDigits n ≠ [] :=
  natDigitsAux_spec (n + 1) n (by omega)

theorem valOfDigits_replicate_zero (k : Nat) (ds : List Char) :
    valOfDigits (List.replicate k (Char.ofNat 48) ++ ds) = valOfDigits ds := by
  induction k with
  | zero => simp
  | succ k ih =>
      simp only [List.replicate, List.cons_append, valOfDigits, List.foldl_cons]
      simpa [valOfDigits, digitVal] using ih

theorem padDigits_spec (w n : Nat) :
    (∀ c ∈ padDigits w n, c.isDigit = true) ∧ valOfDigits (padDigits w n) = n ∧
    padDigits w n ≠ [] := by
  refine ⟨?_, ?_, ?_⟩
  · intro c hc
    rcases List.mem_append.mp hc with hc | hc
    · have := List.eq_of_mem_replicate hc
      subst this
      decide
    · exact (natDigits_spec n).1 c hc
  · rw [padDigits, valOfDigits_replicate_zero]
    exact (natDigits_spec n).2.1
  · intro hcontra
    have hne := (natDigits_spec n).2.2
    have h2 : w - (natDigits n).length = 0 ∧ natDigits n = [] := by
      simpa [padDigits] using hcontra
    exact hne h2.2

theorem takeDigits_append (ds rest : List Char)
    (hds : ∀ c ∈ ds, c.isDigit = true)
    (hrest : ∀ c cs, rest = c :: cs → c.isDigit = false) :
    takeDigits (ds ++ rest) = (ds, rest) := by
  induction ds with
  | nil =>
      cases rest with
      | nil => simp [takeDigits]
      | cons c cs =>
          have := hrest c cs rfl
          simp [takeDigits, this]
  | cons c cs ih =>
      have hc : c.isDigit = true := hds c (by simp)
      have ih2 := ih (fun c hcmem => hds c (by simp [hcmem]))
      simp [takeDigits, hc, ih2]

theorem parse_format_roundtrip (i : Instant) (h0 : i.nanos = 0) :
    parseInstantChars (instantDateTimeChars i ++ ['Z']) = some ⟨i.sec, 0⟩ := by
  have hz := daysFromCivil_civilFromDays (i.sec / 86400)
  have hbounds := civilFromDays_bounds (i.sec / 86400)
  have hY := padDigits_spec 4 (civilFromDays (i.sec / 86400)).1
  have hM := padDigits_spec 2 (civilFromDays (i.sec / 86400)).2.1
  have hD := padDigits_spec 2 (civilFromDays (i.sec / 86400)).2.2
  have hH := padDigits_spec 2 (i.sec % 86400 / 3600)
  have hMin := padDigits_spec 2 (i.sec % 86400 % 3600 / 60)
  have hS := padDigits_spec 2 (i.sec % 86400 % 60)
  have hf : fracChars 0 = [] := rfl
  rw [instantDateTimeChars, h0, hf]
  simp only [List.nil_append, List.append_assoc, List.cons_append]
  rw [parseInstantChars]
  rw [takeDigits_append _ _ hY.1 (by intro c cs hc; injection hc with h1 h2; subst h1; decide)]
  dsimp only
  rw [if_neg hY.2.2, if_pos rfl]
  rw [takeDigits_append _ _ hM.1 (by intro c cs hc; injection hc with h1 h2; subst h1; decide)]
  dsimp only
  rw [if_neg hM.2.2, if_pos rfl]
  rw [takeDigits_append _ _ hD.1 (by intro c cs hc; injection hc with h1 h2; subst h1; decide)]
  dsimp only
  rw [if_neg hD.2.2, if_pos rfl]
  rw [takeDigits_append _ _ hH.1 (by intro c cs hc; injection hc with h1 h2; subst h1; decide)]
  dsimp only
  rw [if_neg hH.2.2, if_pos rfl]
  rw [takeDigits_append _ _ hMin.1 (by intro c cs hc; injection hc with h1 h2; subst h1; decide)]
  dsimp only
  rw [if_neg hMin.2.2, if_pos rfl]
  rw [takeDigits_append _ _ hS.1 (by intro c cs hc; injection hc with h1 h2; subst h1; decide)]
  dsimp only
  rw [if_neg hS.2.2]
  rw [parseAfterSeconds]
  rw [if_pos rfl, if_pos rfl]
  rw [hY.2.1, hM.2.1, hD.2.1, hH.2.1, hMin.2.1, hS.2.1]
  rw [finishInstant]
  rw [if_pos (by refine ⟨?_, ?_, ?_, ?_, ?_, ?_, ?_, ?_⟩ <;> omega)]
  have hsec : daysFromCivil (civilFromDays (i.sec / 86400)).1 (civilFromDays (i.sec / 86400)).2.1
      (civilFromDays (i.sec / 86400)).2.2 * 86400 + i.sec % 86400 / 3600 * 3600 +
      i.sec % 86400 % 3600 / 60 * 60 + i.sec % 86400 % 60 = i.sec := by
    rw [hz]
    omega
  rw [hsec]

theorem replaceFirstAux_single (p : Char) (rep A B : List Char) (h : p ∉ A) :
    replaceFirstAux [p] rep (A ++ p :: B) = A ++ rep ++ B := by
  induction A with
  | nil =>
      simp [replaceFirstAux, List.isPrefixOf]
  | cons c A ih =>
      have hcp : ¬ (p == c) = true := by
        simp only [beq_iff_eq]
        intro hpc
        exact h (by simp [hpc])
      have hA : p ∉ A := fun hmem => h (by simp [hmem])
      simp [replaceFirstAux, List.isPrefixOf, hcp, ih hA]

theorem digit_ne_Z (c : Char) (h : c.isDigit = true) : c ≠ 'Z' := by
  intro hc
  subst hc
  exact absurd h (by decide)

theorem instantDateTimeChars_no_Z (s : Nat) :
    ∀ c ∈ instantDateTimeChars ⟨s, 0⟩, c ≠ 'Z' := by
  intro c hc
  have hf : fracChars 0 = [] := rfl
  simp only [instantDateTimeChars, hf, List.append_nil, List.mem_append, List.mem_cons] at hc
  rcases hc with hc | hc | hc | hc | hc | hc | hc | hc | hc | hc | hc
  · exact digit_ne_Z c ((padDigits_spec 4 _).1 c hc)
  · subst hc; decide
  · exact digit_ne_Z c ((padDigits_spec 2 _).1 c hc)
  · subst hc; decide
  · exact digit_ne_Z c ((padDigits_spec 2 _).1 c hc)
  · subst hc; decide
  · exact digit_ne_Z c ((padDigits_spec 2 _).1 c hc)
  · subst hc; decide
  · exact digit_ne_Z c ((padDigits_spec 2 _).1 c hc)
  · subst hc; decide
  · exact digit_ne_Z c ((padDigits_spec 2 _).1 c hc)

theorem scheduleExpression_eq (et : String) (i : Instant) (R D : Nat)
    (hp : parseInstant et = some i) (h0 : i.nanos = 0) :
    scheduleExpression et R D =
      some ("at(" ++ String.mk (instantDateTimeChars ⟨i.sec + (R + D) * 86400, 0⟩) ++ ")") := by
  rw [scheduleExpression, deletionDate, hp]
  rw [Option.map_some', Option.map_some', h0]
  have hrepl : replaceFirstAux ['Z'] [] (instantDateTimeChars ⟨i.sec + (R + D) * 86400, 0⟩ ++ ['Z'])
      = instantDateTimeChars ⟨i.sec + (R + D) * 86400, 0⟩ := by
    have hrs := replaceFirstAux_single 'Z' [] (instantDateTimeChars ⟨i.sec + (R + D) * 86400, 0⟩) []
      (fun hmem => instantDateTimeChars_no_Z _ 'Z' hmem rfl)
    simpa using hrs
  rw [instantToString, jsReplaceFirst]
  have hzd : ("Z" : String).data = ['Z'] := rfl
  have hed : ("" : String).data = [] := rfl
  rw [hzd, hed, hrepl]

theorem jsonEscapeChar_len (c : Char) : 1 ≤ (jsonEscapeChar c).length := by
  unfold jsonEscapeChar
  split_ifs <;> simp

theorem jsonEscapeList_len (l : List Char) : l.length ≤ (jsonEscapeList l).length := by
  induction l with
  | nil => simp [jsonEscapeList]
  | cons c cs ih =>
      have := jsonEscapeChar_len c
      simp only [jsonEscapeList, List.flatMap_cons, List.length_append]
      simp only [jsonEscapeList] at ih
      simp only [List.length_cons]
      omega

theorem hexVal_hexDigitChar (n : Nat) (h : n < 16) : hexVal (hexDigitChar n) = some n := by
  interval_cases n <;> decide

theorem listAppend_cons (a : Char) (as bs : List Char) :
    List.append (a :: as) bs = a :: List.append as bs := rfl

theorem listAppend_nil (bs : List Char) : List.append [] bs = bs := rfl

theorem parseJsonString_roundtrip :
    ∀ (L rest : List Char) (fuel : Nat), L.length < fuel →
      parseJsonStringAux fuel (jsonEscapeList L ++ quoteChar :: rest) = some (L, rest) := by
  intro L
  induction L with
  | nil =>
      intro rest fuel hf
      cases fuel with
      | zero => omega
      | succ f =>
          simp +decide [jsonEscapeList, parseJsonStringAux]
  | cons c L ih =>
      intro rest fuel hf
      cases fuel with
      | zero => omega
      | succ f =>
          have ihf := ih rest f (by simp at hf; omega)
          have hstep : jsonEscapeList (c :: L) = jsonEscapeChar c ++ jsonEscapeList L := by
            simp [jsonEscapeList]
          rw [hstep, List.append_assoc]
          by_cases h1 : c = quoteChar
          · have he : jsonEscapeChar c = [backslashChar, quoteChar] := by
              rw [jsonEscapeChar]; simp +decide [h1]
            rw [he]; subst h1
            simp +decide only [parseJsonStringAux, List.cons_append, List.singleton_append, List.nil_append, if_true, if_false, listAppend_cons, listAppend_nil]
            rw [ihf]; simp
          · by_cases h2 : c = backslashChar
            · have he : jsonEscapeChar c = [backslashChar, backslashChar] := by
                rw [jsonEscapeChar]; simp +decide [h1, h2]
              rw [he]; subst h2
              simp +decide only [parseJsonStringAux, List.cons_append, List.singleton_append, List.nil_append, if_true, if_false, listAppend_cons, listAppend_nil]
              rw [ihf]; simp
            · by_cases h3 : c = Char.ofNat 8
              · have he : jsonEscapeChar c = [backslashChar, 'b'] := by
                  rw [jsonEscapeChar]; simp +decide [h1, h2, h3]
                rw [he]; subst h3
                simp +decide only [parseJsonStringAux, List.cons_append, List.singleton_append, List.nil_append, if_true, if_false, listAppend_cons, listAppend_nil]
                rw [ihf]; simp
              · by_cases h4 : c = Char.ofNat 9
                · have he : jsonEscapeChar c = [backslashChar, 't'] := by
                    rw [jsonEscapeChar]; simp +decide [h1, h2, h3, h4]
                  rw [he]; subst h4
                  simp +decide only [parseJsonStringAux, List.cons_append, List.singleton_append, List.nil_append, if_true, if_false, listAppend_cons, listAppend_nil]
                  rw [ihf]; simp
                · by_cases h5 : c = Char.ofNat 10
                  · have he : jsonEscapeChar c = [backslashChar, 'n'] := by
                      rw [jsonEscapeChar]; simp +decide [h1, h2, h3, h4, h5]
                    rw [he]; subst h5
                    simp +decide only [parseJsonStringAux, List.cons_append, List.singleton_append, List.nil_append, if_true, if_false, listAppend_cons, listAppend_nil]
                    rw [ihf]; simp
                  · by_cases h6 : c = Char.ofNat 12
                    · have he : jsonEscapeChar c = [backslashChar, 'f'] := by
                        rw [jsonEscapeChar]; simp +decide [h1, h2, h3, h4, h5, h6]
                      rw [he]; subst h6
                      simp +decide only [parseJsonStringAux, List.cons_append, List.singleton_append, List.nil_append, if_true, if_false, listAppend_cons, listAppend_nil]
                      rw [ihf]; simp
                    · by_cases h7 : c = Char.ofNat 13
                      · have he : jsonEscapeChar c = [backslashChar, 'r'] := by
                          rw [jsonEscapeChar]; simp +decide [h1, h2, h3, h4, h5, h6, h7]
                        rw [he]; subst h7
                        simp +decide only [parseJsonStringAux, List.cons_append, List.singleton_append, List.nil_append, if_true, if_false, listAppend_cons, listAppend_nil]
                        rw [ihf]; simp
                      · by_cases h8 : c.toNat < 32
                        · have he : jsonEscapeChar c = [backslashChar, 'u', Char.ofNat 48,
                              Char.ofNat 48, hexDigitChar (c.toNat / 16), hexDigitChar (c.toNat % 16)] := by
                            rw [jsonEscapeChar]; simp +decide [h1, h2, h3, h4, h5, h6, h7, h8]
                          rw [he]
                          simp +decide only [parseJsonStringAux, List.cons_append, List.singleton_append, List.nil_append, if_true, if_false, listAppend_cons, listAppend_nil]
                          rw [hexVal_hexDigitChar (c.toNat / 16) (by omega),
                            hexVal_hexDigitChar (c.toNat % 16) (by omega)]
                          rw [ihf]
                          have h48 : hexVal (Char.ofNat 48) = some 0 := by decide
                          rw [h48]
                          have hc : Char.ofNat (c.toNat / 16 * 16 + c.toNat % 16) = c := by
                            have harith : c.toNat / 16 * 16 + c.toNat % 16 = c.toNat := by omega
                            rw [harith, Char.ofNat_toNat]
                          simp +decide [hc]
                        · have he : jsonEscapeChar c = [c] := by
                            rw [jsonEscapeChar]; simp +decide [h1, h2, h3, h4, h5, h6, h7, h8]
                          rw [he]
                          simp only [List.cons_append, List.nil_append]
                          simp only [parseJsonStringAux, if_neg h1, if_neg h2]
                          rw [ihf]
                          simp

theorem stringMk_data (s : String) : String.mk s.data = s := rfl

theorem parseMembers_two (k1 v1 k2 v2 : String) (fuel : Nat) (hf : 2 ≤ fuel) :
    parseMembersAux fuel
      (jsonQuote k1 ++ ':' :: (jsonQuote v1 ++ ',' :: (jsonQuote k2 ++ ':' :: (jsonQuote v2 ++ [rbraceChar]))))
      = some ([(k1, v1), (k2, v2)], []) := by
  obtain ⟨f, rfl⟩ : ∃ f, fuel = f + 1 := ⟨fuel - 1, by omega⟩
  obtain ⟨f2, rfl⟩ : ∃ f2, f = f2 + 1 := ⟨f - 1, by omega⟩
  simp only [jsonQuote, List.cons_append, List.append_assoc, List.singleton_append]
  simp only [parseMembersAux, if_pos rfl]
  rw [parseJsonString_roundtrip k1.data _ _
    (by have hlen := jsonEscapeList_len k1.data; simp only [List.length_append, List.length_cons]; omega)]
  simp only [if_pos rfl, List.nil_append]
  rw [parseJsonString_roundtrip v1.data _ _
    (by have hlen := jsonEscapeList_len v1.data; simp only [List.length_append, List.length_cons]; omega)]
  simp +decide only [if_pos rfl, if_true, if_false, List.nil_append]
  rw [parseJsonString_roundtrip k2.data _ _
    (by have hlen := jsonEscapeList_len k2.data; simp only [List.length_append, List.length_cons]; omega)]
  simp only [if_pos rfl, List.nil_append]
  rw [parseJsonString_roundtrip v2.data _ _
    (by have hlen := jsonEscapeList_len v2.data; simp only [List.length_append, List.length_cons]; omega)]
  simp +decide only [if_pos rfl, if_true, if_false]
  simp [stringMk_data]

theorem parseDeletionMessage_roundtrip (lg r : String) :
    parseDeletionMessage (jsonStringifyTargetInput lg r) = some ⟨lg, r⟩ := by
  unfold parseDeletionMessage jsonParseStringObject jsonStringifyTargetInput
  simp only [stringMk_data, List.head?_cons, List.tail_cons, if_pos rfl]
  rw [parseMembers_two "logGroupName" lg "awsRegion" r _
    (by simp only [jsonQuote, List.length_append, List.length_cons, List.cons_append]; omega)]
  simp +decide [lookupLast, List.lookup]

theorem isFailureEntry_ok {ε α : Type} (msgId : String) (a : α) :
    isFailureEntry (ε := ε) (msgId, .ok a) = false := rfl

theorem isFailureEntry_error {ε α : Type} (msgId : String) (e : ε) :
    isFailureEntry (α := α) (msgId, .error e) = true := rfl

theorem fetchLogGroupInfo_cases (requested : String) (resp : Option (List LogGroup)) :
    ((∃ lg ∈ resp.getD [], lg.logGroupName = requested) →
      ∃ lg, fetchLogGroupInfo requested resp = .ok lg ∧ lg.logGroupName = requested)
    ∧ ((∀ lg ∈ resp.getD [], lg.logGroupName ≠ requested) →
      fetchLogGroupInfo requested resp = .error notFoundMessage)
    ∧ (∀ lg, fetchLogGroupInfo requested resp = .ok lg →
      lg.logGroupName = requested ∧ lg ∈ resp.getD []) := by
  refine ⟨?_, ?_, ?_⟩
  · rintro ⟨lg, hmem, hname⟩
    unfold fetchLogGroupInfo
    cases hfind : (resp.getD []).find? (fun lg => lg.logGroupName == requested) with
    | none =>
        have := List.find?_eq_none.mp hfind lg hmem
        simp [hname] at this
    | some lg2 =>
        have hp := List.find?_some hfind
        simp only [beq_iff_eq] at hp
        exact ⟨lg2, rfl, hp⟩
  · intro hnone
    unfold fetchLogGroupInfo
    cases hfind : (resp.getD []).find? (fun lg => lg.logGroupName == requested) with
    | none => rfl
    | some lg2 =>
        have hp := List.find?_some hfind
        have hm := List.mem_of_find?_eq_some hfind
        simp only [beq_iff_eq] at hp
        exact absurd hp (hnone lg2 hm)
  · intro lg hok
    unfold fetchLogGroupInfo at hok
    cases hfind : (resp.getD []).find? (fun lg => lg.logGroupName == requested) with
    | none => rw [hfind] at hok; exact absurd hok (by simp)
    | some lg2 =>
        rw [hfind] at hok
        have heq : lg2 = lg := by simpa using hok
        subst heq
        have hp := List.find?_some hfind
        have hm := List.mem_of_find?_eq_some hfind
        simp only [beq_iff_eq] at hp
        exact ⟨hp, hm⟩

theorem fetchLogGroupInfoLegacy_first (resp : Option (List LogGroup)) :
    (∀ lg, fetchLogGroupInfoLegacy resp = .ok lg → (resp.getD []).head? = some lg)
    ∧ (resp.getD [] = [] → fetchLogGroupInfoLegacy resp = .error notFoundMessage) := by
  constructor
  · intro lg hok
    unfold fetchLogGroupInfoLegacy at hok
    cases hh : (resp.getD []).head? with
    | none => rw [hh] at hok; exact absurd hok (by simp)
    | some lg2 =>
        rw [hh] at hok
        have heq : lg2 = lg := by simpa using hok
        subst heq
        rfl
  · intro hnil
    unfold fetchLogGroupInfoLegacy
    rw [hnil]
    rfl

theorem processPartialResponse_all_fail {ε α : Type}
    (results : List (String × Except ε α)) (hne : results ≠ [])
    (hfail : ∀ r ∈ results, ∃ e, r.2 = .error e) :
    processPartialResponse results true = .error .fullBatchFailure := by
  unfold processPartialResponse
  have hfil : results.filter isFailureEntry = results := by
    apply List.filter_eq_self.mpr
    intro r hmem
    obtain ⟨e, he⟩ := hfail r hmem
    simp [isFailureEntry, he]
  rw [if_pos]
  refine ⟨?_, ?_, rfl⟩
  · cases results with
    | nil => exact absurd rfl hne
    | cons a l => simp
  · rw [hfil]; simp

theorem processPartialResponse_no_throw {ε α : Type}
    (results : List (String × Except ε α)) :
    processPartialResponse results false =
      .ok ((results.filter isFailureEntry).map fun r => r.1) := by
  unfold processPartialResponse
  rw [if_neg]
  simp

theorem processPartialResponse_partial {ε α : Type}
    (results : List (String × Except ε α))
    (hsome : ∃ r ∈ results, ∀ e, r.2 ≠ .error e) :
    processPartialResponse results true =
      .ok ((results.filter isFailureEntry).map fun r => r.1) := by
  unfold processPartialResponse
  rw [if_neg]
  intro ⟨hpos, hlen, _⟩
  obtain ⟨r, hmem, hok⟩ := hsome
  have hsub : (results.filter isFailureEntry).length < results.length := by
    apply List.length_filter_lt_length_iff_exists.mpr
    refine ⟨r, hmem, ?_⟩
    cases hr : r.2 with
    | ok a => simp [isFailureEntry, hr]
    | error e => exact absurd hr (hok e)
  simp only [List.length_map] at hlen
  omega

theorem sendWithRetryAux_success (url : String) (p : SlackPayload)
    (outcomes : Nat → FetchOutcome) (attempt r : Nat) (h : outcomes attempt = .success) :
    sendWithRetryAux url p outcomes attempt r = (.ok (), [.fetchPost url p, .logSuccess attempt]) := by
  cases r <;> simp [sendWithRetryAux, h]

theorem sendWithRetryAux_fail_zero (url : String) (p : SlackPayload)
    (outcomes : Nat → FetchOutcome) (attempt : Nat) (h : outcomes attempt ≠ .success) :
    sendWithRetryAux url p outcomes attempt 0 =
      (.error (fetchErrorMessage (outcomes attempt)), [.fetchPost url p]) := by
  cases ho : outcomes attempt with
  | success => exact absurd ho h
  | httpError s t => simp [sendWithRetryAux, ho]
  | transportError m => simp [sendWithRetryAux, ho]

theorem sendWithRetryAux_fail_succ (url : String) (p : SlackPayload)
    (outcomes : Nat → FetchOutcome) (attempt r : Nat) (h : outcomes attempt ≠ .success) :
    sendWithRetryAux url p outcomes attempt (r + 1) =
      ((sendWithRetryAux url p outcomes (attempt + 1) r).1,
        .fetchPost url p :: .sleepMs (2 ^ attempt * 1000) ::
          (sendWithRetryAux url p outcomes (attempt + 1) r).2) := by
  cases ho : outcomes attempt with
  | success => exact absurd ho h
  | httpError s t => simp [sendWithRetryAux, ho]
  | transportError m => simp [sendWithRetryAux, ho]

theorem countFetches_nil : countFetches [] = 0 := rfl

theorem countFetches_cons_fetch (url : String) (p : SlackPayload) (t : List Effect) :
    countFetches (.fetchPost url p :: t) = countFetches t + 1 := rfl

theorem countFetches_cons_sleep (n : Nat) (t : List Effect) :
    countFetches (.sleepMs n :: t) = countFetches t := rfl

theorem countFetches_cons_log (a : Nat) (t : List Effect) :
    countFetches (.logSuccess a :: t) = countFetches t := rfl

theorem countSuccessLogs_nil : countSuccessLogs [] = 0 := rfl

theorem countSuccessLogs_cons_fetch (url : String) (p : SlackPayload) (t : List Effect) :
    countSuccessLogs (.fetchPost url p :: t) = countSuccessLogs t := rfl

theorem countSuccessLogs_cons_sleep (n : Nat) (t : List Effect) :
    countSuccessLogs (.sleepMs n :: t) = countSuccessLogs t := rfl

theorem countSuccessLogs_cons_log (a : Nat) (t : List Effect) :
    countSuccessLogs (.logSuccess a :: t) = countSuccessLogs t + 1 := rfl

theorem sleepsOf_nil : sleepsOf [] = [] := rfl

theorem sleepsOf_cons_fetch (url : String) (p : SlackPayload) (t : List Effect) :
    sleepsOf (.fetchPost url p :: t) = sleepsOf t := rfl

theorem sleepsOf_cons_sleep (n : Nat) (t : List Effect) :
    sleepsOf (.sleepMs n :: t) = n :: sleepsOf t := rfl

theorem sleepsOf_cons_log (a : Nat) (t : List Effect) :
    sleepsOf (.logSuccess a :: t) = sleepsOf t := rfl

theorem sendWithRetryAux_fetch_bound (url : String) (p : SlackPayload)
    (outcomes : Nat → FetchOutcome) :
    ∀ r attempt, countFetches (sendWithRetryAux url p outcomes attempt r).2 ≤ r + 1 := by
  intro r
  induction r with
  | zero =>
      intro attempt
      by_cases h : outcomes attempt = .success
      · rw [sendWithRetryAux_success url p outcomes attempt 0 h]
        simp [countFetches_cons_fetch, countFetches_cons_log, countFetches_nil]
      · rw [sendWithRetryAux_fail_zero url p outcomes attempt h]
        simp [countFetches_cons_fetch, countFetches_nil]
  | succ r ih =>
      intro attempt
      by_cases h : outcomes attempt = .success
      · rw [sendWithRetryAux_success url p outcomes attempt (r + 1) h]
        simp [countFetches_cons_fetch, countFetches_cons_log, countFetches_nil]
      · rw [sendWithRetryAux_fail_succ url p outcomes attempt r h]
        have hb := ih (attempt + 1)
        rw [countFetches_cons_fetch, countFetches_cons_sleep]
        omega

theorem sendWithRetryAux_sleeps (url : String) (p : SlackPayload)
    (outcomes : Nat → FetchOutcome) :
    ∀ r attempt, ∃ k, k ≤ r ∧
      sleepsOf (sendWithRetryAux url p outcomes attempt r).2 =
        (List.range k).map fun j => 2 ^ (attempt + j) * 1000 := by
  intro r
  induction r with
  | zero =>
      intro attempt
      refine ⟨0, by omega, ?_⟩
      by_cases h : outcomes attempt = .success
      · rw [sendWithRetryAux_success url p outcomes attempt 0 h]
        simp [sleepsOf_cons_fetch, sleepsOf_cons_log, sleepsOf_nil]
      · rw [sendWithRetryAux_fail_zero url p outcomes attempt h]
        simp [sleepsOf_cons_fetch, sleepsOf_nil]
  | succ r ih =>
      intro attempt
      by_cases h : outcomes attempt = .success
      · refine ⟨0, by omega, ?_⟩
        rw [sendWithRetryAux_success url p outcomes attempt (r + 1) h]
        simp [sleepsOf_cons_fetch, sleepsOf_cons_log, sleepsOf_nil]
      · obtain ⟨k, hk, hs⟩ := ih (attempt + 1)
        refine ⟨k + 1, by omega, ?_⟩
        rw [sendWithRetryAux_fail_succ url p outcomes attempt r h]
        rw [sleepsOf_cons_fetch, sleepsOf_cons_sleep, hs]
        have hmap : (List.range (k + 1)).map (fun j => 2 ^ (attempt + j) * 1000)
            = 2 ^ attempt * 1000 ::
              (List.range k).map (fun j => 2 ^ (attempt + 1 + j) * 1000) := by
          rw [List.range_succ_eq_map, List.map_cons, List.map_map]
          refine List.cons_eq_cons.mpr ⟨by simp, ?_⟩
          apply List.map_congr_left
          intro j hj
          have harith : attempt + Nat.succ j = attempt + 1 + j := by omega
          simp [Function.comp, harith]
        rw [hmap]

/-- Claim C1 (amended): the current event-handler resolver `fetchLogGroupInfo`
returns the entry whose name exactly equals the requested name and throws the
NotFound error whenever no exactly-equal entry is present, even when
prefix-matching entries exist and when the response is empty; the legacy
`Lambda.#fetchLogGroupInfo`, however, returns the first entry of the response
regardless of its name, throwing NotFound only on an empty response. -/
theorem claim_C1 (requested : String) (resp : Option (List LogGroup)) :
    ((∃ lg ∈ resp.getD [], lg.logGroupName = requested) →
      ∃ lg, fetchLogGroupInfo requested resp = .ok lg ∧ lg.logGroupName = requested)
    ∧ ((∀ lg ∈ resp.getD [], lg.logGroupName ≠ requested) →
      fetchLogGroupInfo requested resp = .error notFoundMessage)
    ∧ (∀ lg, fetchLogGroupInfo requested resp = .ok lg →
      lg.logGroupName = requested ∧ lg ∈ resp.getD [])
    ∧ (∀ lg, fetchLogGroupInfoLegacy resp = .ok lg → (resp.getD []).head? = some lg)
    ∧ (resp.getD [] = [] → fetchLogGroupInfoLegacy resp = .error notFoundMessage) := by
  obtain ⟨h1, h2, h3⟩ := fetchLogGroupInfo_cases requested resp
  obtain ⟨h4, h5⟩ := fetchLogGroupInfoLegacy_first resp
  exact ⟨h1, h2, h3, h4, h5⟩

/-- Claim C1 witness: on a response holding only a prefix-matching entry, the
current resolver reports NotFound. -/
theorem claim_C1_witness :
    fetchLogGroupInfo "/aws/lambda/Logger-20" (some [⟨"/aws/lambda/Logger-20-Extra", some 30⟩])
      = .error notFoundMessage :=
  (claim_C1 "/aws/lambda/Logger-20" (some [⟨"/aws/lambda/Logger-20-Extra", some 30⟩])).2.1
    (by decide)

/-- Claim C1 counterexample: with a response containing exactly one entry
whose name extends the requested prefix without being equal to it, the legacy
resolver returns that entry successfully instead of throwing NotFound (the
current resolver throws, as the claim demands). -/
theorem claim_C1_counterexample :
    fetchLogGroupInfoLegacy (some [⟨"/aws/lambda/Logger-20-Extra", some 30⟩])
        = .ok ⟨"/aws/lambda/Logger-20-Extra", some 30⟩
      ∧ ("/aws/lambda/Logger-20-Extra" : String) ≠ "/aws/lambda/Logger-20"
      ∧ fetchLogGroupInfo "/aws/lambda/Logger-20"
          (some [⟨"/aws/lambda/Logger-20-Extra", some 30⟩]) = .error notFoundMessage := by
  refine ⟨by decide, by decide, by decide⟩

/-- Claim C3: the deletion record handler treats `ResourceNotFoundException`
from the delete call as success, returns normally on a successful delete, and
rethrows every other error; a record whose delete call fails with another
error is reported as a per-item failure whenever the handler returns a
partial-failure report. -/
theorem claim_C3 :
    (∀ m, deletionRecordHandler (.error (.resourceNotFound m)) = .ok ())
    ∧ deletionRecordHandler (.ok ()) = .ok ()
    ∧ (∀ m, deletionRecordHandler (.error (.other m)) = .error (.other m))
    ∧ (∀ (records : List (String × Except DeleteLogGroupError Unit)) (msgId m : String)
        (ids : List String), (msgId, Except.error (.other m)) ∈ records →
        deletionHandler records = .ok ids → msgId ∈ ids) := by
  refine ⟨fun m => rfl, rfl, fun m => rfl, ?_⟩
  intro records msgId m ids hmem hok
  unfold deletionHandler processPartialResponse at hok
  dsimp only at hok
  split at hok
  · exact absurd hok (by simp)
  · injection hok with hids
    subst hids
    rw [List.mem_map]
    refine ⟨(msgId, Except.error (DeleteLogGroupError.other m)), ?_, rfl⟩
    rw [List.mem_filter]
    refine ⟨?_, rfl⟩
    exact List.mem_map_of_mem (fun r => (r.1, deletionRecordHandler r.2)) hmem

/-- Claim C3 witness: a batch with one successful delete and one delete
failing with an access error reports the failing record's identifier. -/
theorem claim_C3_witness :
    deletionRecordHandler (.error (.resourceNotFound "The specified log group does not exist"))
        = .ok ()
      ∧ ("m2" : String) ∈ ["m2"] :=
  ⟨claim_C3.1 "The specified log group does not exist",
    claim_C3.2.2.2 [("m1", .ok ()), ("m2", .error (.other "Access denied"))] "m2"
      "Access denied" ["m2"] (by decide) (by decide)⟩

/-- Claim C2 (amended): for every parseable event time and every retention
value (taken as 0 when the resolved log group has none) and delay, the
registered schedule expression is `at(T)` where `T`, re-read as a UTC
timestamp, denotes exactly the event time plus (R+D) days, carries no zone
designator, and — as the counterexample shows — preserves rather than
truncates any sub-second part of the event time; for whole-second event
times `T` is exactly the second-precision rendering the original claim
describes.  The last conjunct ties the expression to the record handler
with its `retentionInDays ?? 0` default. -/
theorem claim_C2 (et : String) (i : Instant) (ret : Option Nat) (D : Nat)
    (hp : parseInstant et = some i) (h0 : i.nanos = 0) :
    ∃ T : String,
      scheduleExpression et (ret.getD 0) D = some ("at(" ++ T ++ ")")
      ∧ parseInstant (T ++ "Z") = some ⟨i.sec + (ret.getD 0 + D) * 86400, 0⟩
      ∧ (∀ c ∈ T.data, c ≠ 'Z')
      ∧ (∀ (requested : String) (resp : Option (List LogGroup)) (lg : LogGroup),
          fetchLogGroupInfo requested resp = .ok lg → lg.retentionInDays = ret →
          eventRecordHandler et requested resp D = .ok ("at(" ++ T ++ ")")) := by
  refine ⟨String.mk (instantDateTimeChars ⟨i.sec + (ret.getD 0 + D) * 86400, 0⟩), ?_, ?_, ?_, ?_⟩
  · exact scheduleExpression_eq et i (ret.getD 0) D hp h0
  · show parseInstantChars _ = _
    have hd : (String.mk (instantDateTimeChars ⟨i.sec + (ret.getD 0 + D) * 86400, 0⟩)
        ++ "Z").data = instantDateTimeChars ⟨i.sec + (ret.getD 0 + D) * 86400, 0⟩ ++ ['Z'] := rfl
    rw [hd]
    exact parse_format_roundtrip ⟨i.sec + (ret.getD 0 + D) * 86400, 0⟩ rfl
  · exact instantDateTimeChars_no_Z (i.sec + (ret.getD 0 + D) * 86400)
  · intro requested resp lg hfetch hret
    unfold eventRecordHandler
    rw [hfetch]
    dsimp only
    rw [hret]
    rw [scheduleExpression_eq et i (ret.getD 0) D hp h0]

/-- Claim C2 witness: the schedule expression for the repository's own test
event time with 7 retention days and 1 delay day. -/
theorem claim_C2_witness :
    parseInstant "2024-10-10T13:26:07Z" = some ⟨1728566767, 0⟩
    ∧ (∃ T : String,
        scheduleExpression "2024-10-10T13:26:07Z" ((some 7 : Option Nat).getD 0) 1
            = some ("at(" ++ T ++ ")")
        ∧ parseInstant (T ++ "Z")
            = some ⟨1728566767 + ((some 7 : Option Nat).getD 0 + 1) * 86400, 0⟩
        ∧ (∀ c ∈ T.data, c ≠ 'Z')
        ∧ (∀ (requested : String) (resp : Option (List LogGroup)) (lg : LogGroup),
            fetchLogGroupInfo requested resp = .ok lg → lg.retentionInDays = some 7 →
            eventRecordHandler "2024-10-10T13:26:07Z" requested resp 1
              = .ok ("at(" ++ T ++ ")"))) :=
  ⟨by decide, claim_C2 "2024-10-10T13:26:07Z" ⟨1728566767, 0⟩ (some 7) 1 (by decide) rfl⟩

/-- Claim C2 counterexample: an event time carrying milliseconds is not
truncated to second precision — the fractional part survives into the
schedule expression, so the expression differs from the claim's
second-precision rendering `at(2024-10-18T13:26:07)`. -/
theorem claim_C2_counterexample :
    scheduleExpression "2024-10-10T13:26:07.123Z" 7 1 = some "at(2024-10-18T13:26:07.123)"
    ∧ (some "at(2024-10-18T13:26:07.123)" : Option String) ≠ some "at(2024-10-18T13:26:07)"
    ∧ parseInstant "2024-10-10T13:26:07.123Z" = some ⟨1728566767, 123000000⟩ := by
  refine ⟨by decide, by decide, by decide⟩

/-- Claim C4: on any alarm event whose state is not ALARM, the notifier
returns normally with an empty external-call trace — in particular it never
reads the webhook parameter and never issues a webhook POST. -/
theorem claim_C4 (event : CloudWatchAlarmEvent) (env : NotifierEnv)
    (h : event.alarmData.state.value ≠ .ALARM) :
    notifierHandler event env = (.ok (), [])
    ∧ (∀ name, Effect.getParam name ∉ (notifierHandler event env).2)
    ∧ (∀ url p, Effect.fetchPost url p ∉ (notifierHandler event env).2) := by
  have hrun : notifierHandler event env = (.ok (), []) := by
    unfold notifierHandler
    rw [if_pos h]
  refine ⟨hrun, ?_, ?_⟩
  · intro name; rw [hrun]; simp
  · intro url p; rw [hrun]; simp

/-- Claim C4 witness: a concrete OK-state event produces no external calls. -/
theorem claim_C4_witness :
    notifierHandler
        ⟨"arn:aws:cloudwatch:us-east-1:123456789012:alarm:TestAlarm", "123456789012",
         "2025-01-02T12:34:56.000Z", "us-east-1",
         ⟨"TestAlarm", ⟨.OK, "2025-01-02T12:34:56.000Z", "recovered"⟩,
          ⟨"Test alarm description"⟩⟩⟩
        ⟨"/slack-webhook-url", "TestApp", some "https://hooks.slack.com/test-webhook",
          fun _ => .success⟩
      = (.ok (), []) :=
  (claim_C4 _ _ (by decide)).1

/-- Claim C5: with the handler's `maxRetries = 3`, `sendWithRetry` makes at
most 4 POST attempts; the backoff before the retry that follows attempt `i`
is `2 ^ i` seconds (1000·2^i ms, in order); when the first three attempts
fail and the fourth succeeds it returns normally with exactly one success
log after exactly 4 attempts; when all four attempts fail it raises the
fourth attempt's error after the fourth attempt, with no further attempt
and no success log. -/
theorem claim_C5 (url : String) (p : SlackPayload) (outcomes : Nat → FetchOutcome) :
    countFetches (sendWithRetry url p outcomes 3).2 ≤ 4
    ∧ (∃ k, k ≤ 3 ∧ sleepsOf (sendWithRetry url p outcomes 3).2
        = (List.range k).map fun j => 2 ^ j * 1000)
    ∧ (outcomes 0 ≠ .success → outcomes 1 ≠ .success → outcomes 2 ≠ .success →
        outcomes 3 = .success →
        sendWithRetry url p outcomes 3 =
          (.ok (), [.fetchPost url p, .sleepMs 1000, .fetchPost url p, .sleepMs 2000,
            .fetchPost url p, .sleepMs 4000, .fetchPost url p, .logSuccess 3])
        ∧ countFetches (sendWithRetry url p outcomes 3).2 = 4
        ∧ countSuccessLogs (sendWithRetry url p outcomes 3).2 = 1)
    ∧ ((∀ a, a ≤ 3 → outcomes a ≠ .success) →
        sendWithRetry url p outcomes 3 =
          (.error (fetchErrorMessage (outcomes 3)),
            [.fetchPost url p, .sleepMs 1000, .fetchPost url p, .sleepMs 2000,
              .fetchPost url p, .sleepMs 4000, .fetchPost url p])
        ∧ countFetches (sendWithRetry url p outcomes 3).2 = 4
        ∧ countSuccessLogs (sendWithRetry url p outcomes 3).2 = 0) := by
  refine ⟨?_, ?_, ?_, ?_⟩
  · exact sendWithRetryAux_fetch_bound url p outcomes 3 0
  · obtain ⟨k, hk, hs⟩ := sendWithRetryAux_sleeps url p outcomes 3 0
    exact ⟨k, hk, by simpa using hs⟩
  · intro h0 h1 h2 h3
    have hrun : sendWithRetry url p outcomes 3 =
        (.ok (), [.fetchPost url p, .sleepMs 1000, .fetchPost url p, .sleepMs 2000,
          .fetchPost url p, .sleepMs 4000, .fetchPost url p, .logSuccess 3]) := by
      unfold sendWithRetry
      rw [sendWithRetryAux_fail_succ url p outcomes 0 2 h0]
      rw [sendWithRetryAux_fail_succ url p outcomes 1 1 h1]
      rw [sendWithRetryAux_fail_succ url p outcomes 2 0 h2]
      rw [sendWithRetryAux_success url p outcomes 3 0 h3]
      norm_num
    refine ⟨hrun, ?_, ?_⟩ <;> rw [hrun] <;> rfl
  · intro hall
    have hrun : sendWithRetry url p outcomes 3 =
        (.error (fetchErrorMessage (outcomes 3)),
          [.fetchPost url p, .sleepMs 1000, .fetchPost url p, .sleepMs 2000,
            .fetchPost url p, .sleepMs 4000, .fetchPost url p]) := by
      unfold sendWithRetry
      rw [sendWithRetryAux_fail_succ url p outcomes 0 2 (hall 0 (by omega))]
      rw [sendWithRetryAux_fail_succ url p outcomes 1 1 (hall 1 (by omega))]
      rw [sendWithRetryAux_fail_succ url p outcomes 2 0 (hall 2 (by omega))]
      rw [sendWithRetryAux_fail_zero url p outcomes 3 (hall 3 (by omega))]
      norm_num
    refine ⟨hrun, ?_, ?_⟩ <;> rw [hrun] <;> rfl

/-- Claim C5 witness: a webhook that times out three times and then accepts
the POST yields success after four attempts with backoffs of 1, 2 and 4
seconds. -/
theorem claim_C5_witness :
    (sendWithRetry "https://hooks.slack.com/test-webhook" ⟨"🚨", "a", "d", "u", "r", "t", "n"⟩
        (fun a => if a < 3 then .transportError "fetch failed" else .success) 3).1 = .ok ()
    ∧ countFetches (sendWithRetry "https://hooks.slack.com/test-webhook"
        ⟨"🚨", "a", "d", "u", "r", "t", "n"⟩
        (fun a => if a < 3 then .transportError "fetch failed" else .success) 3).2 = 4
    ∧ countSuccessLogs (sendWithRetry "https://hooks.slack.com/test-webhook"
        ⟨"🚨", "a", "d", "u", "r", "t", "n"⟩
        (fun a => if a < 3 then .transportError "fetch failed" else .success) 3).2 = 1 := by
  have h := (claim_C5 "https://hooks.slack.com/test-webhook" ⟨"🚨", "a", "d", "u", "r", "t", "n"⟩
    (fun a => if a < 3 then .transportError "fetch failed" else .success)).2.2.1
    (by decide) (by decide) (by decide) (by decide)
  exact ⟨by rw [h.1], h.2.1, h.2.2⟩

/-- Claim C6: for the concrete ALARM event of the specification (TestAlarm in
us-east-1 at 2025-01-02T12:34:56.000Z with application name TestApp), the
notifier posts exactly the specified payload to the webhook, after one
parameter-store read, and succeeds on the first attempt. -/
theorem claim_C6 :
    notifierHandler
        ⟨"arn:aws:cloudwatch:us-east-1:123456789012:alarm:TestAlarm", "123456789012",
         "2025-01-02T12:34:56.000Z", "us-east-1",
         ⟨"TestAlarm", ⟨.ALARM, "2025-01-02T12:34:56.000Z", "Test alarm reason"⟩,
          ⟨"Test alarm description"⟩⟩⟩
        ⟨"/slack-webhook-url", "TestApp", some "https://hooks.slack.com/test-webhook",
          fun _ => .success⟩
      = (.ok (), [.getParam "/slack-webhook-url",
          .fetchPost "https://hooks.slack.com/test-webhook"
            ⟨"🚨", "TestAlarm", "Test alarm description",
             "https://us-east-1.console.aws.amazon.com/cloudwatch/home?region=us-east-1#alarmsV2:alarm/TestAlarm",
             "us-east-1", "2025-01-02 12:34:56 UTC", "TestApp"⟩,
          .logSuccess 0]) := by
  decide

/-- Claim C7 (amended): a non-empty batch in which every record fails makes
the deletion handler raise the distinguished full-batch failure
(`throwOnFullBatchFailure` defaulted on), while the event handler — which
passes `throwOnFullBatchFailure: false` — instead returns a partial-failure
report listing every record's identifier. -/
theorem claim_C7 :
    (∀ records : List (String × Except DeleteLogGroupError Unit), records ≠ [] →
      (∀ r ∈ records, ∃ e, deletionRecordHandler r.2 = .error e) →
      deletionHandler records = .error .fullBatchFailure)
    ∧ (∀ (deletionDelayDays : Nat)
        (records : List (String × String × String × Option (List LogGroup))),
        (∀ r ∈ records, ∃ e, eventRecordHandler r.2.1 r.2.2.1 r.2.2.2 deletionDelayDays
          = .error e) →
        eventHandler deletionDelayDays records = .ok (records.map fun r => r.1)) := by
  constructor
  · intro records hne hfail
    unfold deletionHandler
    apply processPartialResponse_all_fail
    · intro hnil
      exact hne (by simpa using hnil)
    · intro r hmem
      rw [List.mem_map] at hmem
      obtain ⟨a, hamem, harfl⟩ := hmem
      obtain ⟨e, he⟩ := hfail a hamem
      subst harfl
      exact ⟨e, he⟩
  · intro D records hfail
    unfold eventHandler
    rw [processPartialResponse_no_throw]
    congr 1
    have hfil : ((records.map fun r =>
        (r.1, eventRecordHandler r.2.1 r.2.2.1 r.2.2.2 D)).filter isFailureEntry)
        = records.map fun r => (r.1, eventRecordHandler r.2.1 r.2.2.1 r.2.2.2 D) := by
      apply List.filter_eq_self.mpr
      intro r hmem
      rw [List.mem_map] at hmem
      obtain ⟨a, hamem, harfl⟩ := hmem
      obtain ⟨e, he⟩ := hfail a hamem
      subst harfl
      simp [isFailureEntry, he]
    rw [hfil, List.map_map]
    rfl

/-- Claim C7 witness: a single-record deletion batch whose delete call is
denied raises the full-batch failure. -/
theorem claim_C7_witness :
    deletionHandler [("m1", .error (.other "Access denied"))] = .error .fullBatchFailure :=
  claim_C7.1 [("m1", .error (.other "Access denied"))] (by decide)
    (fun r hmem => by
      simp only [List.mem_singleton] at hmem
      subst hmem
      exact ⟨.other "Access denied", rfl⟩)

/-- Claim C7 counterexample: a non-empty event-handler batch in which every
record fails (the describe response is absent, so the resolver throws
NotFound) returns a partial-failure report naming the record — it does not
raise the full-batch-failure condition, contradicting the claim for that
processor. -/
theorem claim_C7_counterexample :
    eventHandler 1 [("m1", "2024-10-10T13:26:07Z", "/aws/lambda/Logger-20", none)]
      = .ok ["m1"] := by
  decide

/-- Claim C8: in a two-record deletion batch where one record's delete
succeeds (or hits the idempotent not-found path) and the other fails, the
partial-failure report contains exactly the failing record's identifier,
in either order of arrival. -/
theorem claim_C8 (id1 id2 : String) (o1 o2 : Except DeleteLogGroupError Unit)
    (e : DeleteLogGroupError)
    (h1 : deletionRecordHandler o1 = .ok ()) (h2 : deletionRecordHandler o2 = .error e) :
    deletionHandler [(id1, o1), (id2, o2)] = .ok [id2]
    ∧ deletionHandler [(id2, o2), (id1, o1)] = .ok [id2] := by
  constructor
  · unfold deletionHandler processPartialResponse
    simp [List.filter, h1, h2, isFailureEntry_ok, isFailureEntry_error]
  · unfold deletionHandler processPartialResponse
    simp [List.filter, h1, h2, isFailureEntry_ok, isFailureEntry_error]

/-- Claim C8 witness: message `success-1` succeeds, message `failure-1` is
denied; only `failure-1` is reported. -/
theorem claim_C8_witness :
    deletionHandler [("success-1", .ok ()), ("failure-1", .error (.other "Delete failed"))]
      = .ok ["failure-1"] :=
  (claim_C8 "success-1" "failure-1" (.ok ()) (.error (.other "Delete failed"))
    (.other "Delete failed") rfl rfl).1

theorem jsSplitChar_no_sep (sep : Char) (A : List Char) (h : sep ∉ A) :
    jsSplitChar sep A = [A] := by
  induction A with
  | nil => rfl
  | cons c cs ih =>
      have hc : ¬ (c = sep) := fun hcs => h (by simp [hcs])
      have hcs2 : sep ∉ cs := fun hm => h (by simp [hm])
      simp [jsSplitChar, hc, ih hcs2]

theorem jsSplitChar_append (sep : Char) (A B : List Char) (h : sep ∉ A) :
    jsSplitChar sep (A ++ sep :: B) = A :: jsSplitChar sep B := by
  induction A with
  | nil => simp [jsSplitChar]
  | cons c cs ih =>
      have hc : ¬ (c = sep) := fun hcs => h (by simp [hcs])
      have hcs2 : sep ∉ cs := fun hm => h (by simp [hm])
      have ih2 := ih hcs2
      have ih3 : jsSplitChar sep (cs.append (sep :: B)) = cs :: jsSplitChar sep B := ih2
      simp only [List.cons_append, jsSplitChar, if_neg hc, ih3]

/-- Claim C9: `buildCloudWatchUrl` fails fast with the descriptive
`Invalid alarm ARN format` error whenever splitting the alarm ARN on `:`
yields fewer than the 7 expected parts, before any URL is produced; with the
expected parts present it returns the console deep link built from the
region part (index 3) and the URI-encoded resource-name part (index 6) —
in particular, for every well-formed alarm ARN
`arn:aws:cloudwatch:<region>:<account>:alarm:<name>` whose components
contain no colon, the link embeds exactly that region and encoded name. -/
theorem claim_C9 (arn region acct name : String)
    (hr : ∀ c ∈ region.data, c ≠ ':') (ha : ∀ c ∈ acct.data, c ≠ ':')
    (hn : ∀ c ∈ name.data, c ≠ ':') :
    ((jsSplit arn ':').length < 7 →
      buildCloudWatchUrl arn = .error ("Invalid alarm ARN format: " ++ arn))
    ∧ (7 ≤ (jsSplit arn ':').length →
      buildCloudWatchUrl arn = .ok ("https://" ++ (jsSplit arn ':')[3]! ++
        ".console.aws.amazon.com/cloudwatch/home?region=" ++ (jsSplit arn ':')[3]! ++
        "#alarmsV2:alarm/" ++ encodeURIComponent (jsSplit arn ':')[6]!))
    ∧ jsSplit ("arn:aws:cloudwatch:" ++ region ++ ":" ++ acct ++ ":alarm:" ++ name) ':'
        = ["arn", "aws", "cloudwatch", region, acct, "alarm", name]
    ∧ buildCloudWatchUrl ("arn:aws:cloudwatch:" ++ region ++ ":" ++ acct ++ ":alarm:" ++ name)
        = .ok ("https://" ++ region ++ ".console.aws.amazon.com/cloudwatch/home?region="
            ++ region ++ "#alarmsV2:alarm/" ++ encodeURIComponent name) := by
  have hsplit : jsSplit ("arn:aws:cloudwatch:" ++ region ++ ":" ++ acct ++ ":alarm:" ++ name) ':'
      = ["arn", "aws", "cloudwatch", region, acct, "alarm", name] := by
    rw [jsSplit]
    have hform : ("arn:aws:cloudwatch:" ++ region ++ ":" ++ acct ++ ":alarm:" ++ name).data
        = "arn".data ++ ':' :: ("aws".data ++ ':' :: ("cloudwatch".data ++ ':' ::
          (region.data ++ ':' :: (acct.data ++ ':' :: ("alarm".data ++ ':' :: name.data))))) := by
      show (((("arn:aws:cloudwatch:".data ++ region.data) ++ ":".data) ++ acct.data)
          ++ ":alarm:".data) ++ name.data = _
      simp only [List.append_assoc]
      rfl
    rw [hform]
    rw [jsSplitChar_append ':' ("arn".data) _ (by decide)]
    rw [jsSplitChar_append ':' ("aws".data) _ (by decide)]
    rw [jsSplitChar_append ':' ("cloudwatch".data) _ (by decide)]
    rw [jsSplitChar_append ':' region.data _ (fun hm => hr ':' hm rfl)]
    rw [jsSplitChar_append ':' acct.data _ (fun hm => ha ':' hm rfl)]
    rw [jsSplitChar_append ':' ("alarm".data) _ (by decide)]
    rw [jsSplitChar_no_sep ':' name.data (fun hm => hn ':' hm rfl)]
    simp [stringMk_data]
  refine ⟨?_, ?_, hsplit, ?_⟩
  · intro hlen
    unfold buildCloudWatchUrl
    rw [if_pos hlen]
  · intro hlen
    unfold buildCloudWatchUrl
    rw [if_neg (by omega)]
  · unfold buildCloudWatchUrl
    rw [hsplit]
    rw [if_neg (by simp)]
    rfl

/-- Claim C9 witness: the TestAlarm ARN is split into its 7 parts and the
deep link embeds its region and name; a malformed identifier fails fast. -/
theorem claim_C9_witness :
    jsSplit ("arn:aws:cloudwatch:" ++ "us-east-1" ++ ":" ++ "123456789012" ++ ":alarm:"
        ++ "TestAlarm") ':'
      = ["arn", "aws", "cloudwatch", "us-east-1", "123456789012", "alarm", "TestAlarm"]
    ∧ buildCloudWatchUrl ("arn:aws:cloudwatch:" ++ "us-east-1" ++ ":" ++ "123456789012"
        ++ ":alarm:" ++ "TestAlarm")
      = .ok ("https://" ++ "us-east-1" ++ ".console.aws.amazon.com/cloudwatch/home?region="
          ++ "us-east-1" ++ "#alarmsV2:alarm/" ++ encodeURIComponent "TestAlarm") :=
  ⟨(claim_C9 "" "us-east-1" "123456789012" "TestAlarm" (by decide) (by decide) (by decide)).2.2.1,
    (claim_C9 "" "us-east-1" "123456789012" "TestAlarm" (by decide) (by decide) (by decide)).2.2.2⟩

/-- Claim C10: for every log group name and region, the JSON string the
scheduler registers as the schedule target input parses under the deletion
processor's message schema back to exactly the original pair. -/
theorem claim_C10 (logGroupName awsRegion : String) :
    parseDeletionMessage (jsonStringifyTargetInput logGroupName awsRegion)
      = some ⟨logGroupName, awsRegion⟩ :=
  parseDeletionMessage_roundtrip logGroupName awsRegion
